import Mathlib

/-!
Shallow embedding of the sealed-bid auction frontend logic
(`src/packages/nextjs/app/page.tsx`) of the GTC repository.

JavaScript strings are modelled as `List Char`; JavaScript `BigInt`
values (all non-negative in this code path) are modelled as `Nat`.
The external `poseidonHashMany` function from the `micro-starknet`
library is out of the repository and is threaded through the
definitions as an explicit parameter `poseidon : List Nat → Nat`.
-/

namespace GTC

/-- Result record of `splitU256` (`{ low, high }` in the source). -/
structure U256Parts where
  low : Nat
  high : Nat
  deriving Repr, DecidableEq

/-- Embedding of `splitU256` (page.tsx lines 496-501):
`mask = (1n << 128n) - 1n; low = value & mask; high = value >> 128n`. -/
def splitU256 (value : Nat) : U256Parts :=
  let mask : Nat := (1 <<< 128) - 1
  { low := value &&& mask, high := value >>> 128 }

/-- Input sequence handed to `poseidonHashMany` by `computeCommitment`
(page.tsx lines 255-266): `[secret, amountLow, lotIdLow, winnerBigInt]`. -/
def commitInputs (secret amount lot_id winner : Nat) : List Nat :=
  [secret, (splitU256 amount).low, (splitU256 lot_id).low, winner]

/-- Input sequence handed to `poseidonHashMany` by the preview memo
`calculatedCommitment` (page.tsx lines 271-281): `[low, high, nonceBig]`
where `{low, high} = splitU256(amountBig)`. -/
def previewInputs (amount nonce : Nat) : List Nat :=
  [(splitU256 amount).low, (splitU256 amount).high, nonce]

end GTC

namespace GTC

/-- Decimal digit characters accepted by the JavaScript `BigInt`
constructor in a plain decimal literal. -/
def isDecDigit (c : Char) : Bool :=
  decide ('0' ≤ c) && decide (c ≤ '9')

/-- Hexadecimal digit characters (either case) accepted after a `0x`
or `0X` marker by the JavaScript `BigInt` constructor. -/
def isHexDigit (c : Char) : Bool :=
  isDecDigit c || (decide ('a' ≤ c) && decide (c ≤ 'f'))
    || (decide ('A' ≤ c) && decide (c ≤ 'F'))

/-- The sixteen lower-case hexadecimal digit characters. -/
def lowerHexChars : List Char :=
  "0123456789abcdef".data

/-- Lower-case hexadecimal digit characters, the alphabet of the
addresses the claims quantify over. -/
def isLowerHexDigit (c : Char) : Bool :=
  lowerHexChars.contains c

/-- Numeric value of a single decimal or hexadecimal digit character. -/
def hexDigitVal (c : Char) : Nat :=
  if isDecDigit c then c.toNat - 48
  else if decide ('a' ≤ c) && decide (c ≤ 'f') then c.toNat - 87
  else if decide ('A' ≤ c) && decide (c ≤ 'F') then c.toNat - 55
  else 0

/-- Value of a digit string read left to right in the given base. -/
def digitsVal (base : Nat) (s : List Char) : Nat :=
  s.foldl (fun acc c => base * acc + hexDigitVal c) 0

/-- Embedding of the JavaScript `BigInt(string)` conversion on the
string shapes this code ever feeds it: the empty string (JS yields
`0n`), `0x`/`0X`-marked hexadecimal literals, and plain decimal
literals.  `none` models the conversion throwing. -/
def parseBigInt (s : List Char) : Option Nat :=
  match s with
  | [] => some 0
  | '0' :: 'x' :: rest =>
      if rest ≠ [] ∧ rest.all isHexDigit then some (digitsVal 16 rest) else none
  | '0' :: 'X' :: rest =>
      if rest ≠ [] ∧ rest.all isHexDigit then some (digitsVal 16 rest) else none
  | _ => if s ≠ [] ∧ s.all isDecDigit then some (digitsVal 10 s) else none

/-- Lower-case hexadecimal digit character for a value below 16, as
produced by the JavaScript `BigInt.prototype.toString(16)`. -/
def hexDigitChar (d : Nat) : Char :=
  if d < 10 then Char.ofNat (48 + d) else Char.ofNat (87 + d)

/-- Digit loop of the JavaScript `big.toString(16)`: accumulates the
base-16 digits of `n` (least significant first) in front of `ds`,
with enough fuel to terminate. -/
def natToHexAux : Nat → Nat → List Char → List Char
  | 0, _, ds => ds
  | fuel + 1, n, ds =>
      let d := hexDigitChar (n % 16)
      if n / 16 = 0 then d :: ds
      else natToHexAux fuel (n / 16) (d :: ds)

/-- Digit string of `n` in base 16, lower case, no leading zeros
(except `"0"` itself): the JavaScript `big.toString(16)` for a
non-negative `big`. -/
def natToHex (n : Nat) : List Char :=
  natToHexAux (n + 1) n []

/-- Recursive characterization of the base-16 digit string, used as
the specification side in the proofs about `natToHex`. -/
def natToHexCanon (n : Nat) : List Char :=
  if _h : n < 16 then [hexDigitChar n]
  else natToHexCanon (n / 16) ++ [hexDigitChar (n % 16)]
  decreasing_by exact Nat.div_lt_self (by omega) (by omega)

/-- Embedding of the JavaScript `String.prototype.padStart(len, c)`. -/
def padStart (len : Nat) (c : Char) (s : List Char) : List Char :=
  List.replicate (len - s.length) c ++ s

/-- Embedding of `toHexAddress` (page.tsx lines 41-49) on string
inputs: falsy (empty) input yields `"0x0"`; otherwise
`"0x" + BigInt(addr).toString(16).padStart(64, "0")`, falling back to
the input string itself when the `BigInt` conversion throws. -/
def toHexAddress (addr : List Char) : List Char :=
  if addr = [] then '0' :: 'x' :: ['0']
  else
    match parseBigInt addr with
    | some n => '0' :: 'x' :: padStart 64 '0' (natToHex n)
    | none => addr

/-- Removal of the first occurrence of the substring `"0x"`: the
JavaScript `str.replace("0x", "")`. -/
def removeFirst0x : List Char → List Char
  | [] => []
  | '0' :: 'x' :: rest => rest
  | c :: rest => c :: removeFirst0x rest

/-- Embedding of `normalizeAddress` (page.tsx lines 57-62): falsy
(empty) input yields `""`; otherwise the first `"0x"` occurrence is
removed, leading zeros are stripped (`replace(/^0+/, "")`), and the
result (or `"0"` when empty) is re-prefixed with `"0x"`. -/
def normalizeAddress (addr : List Char) : List Char :=
  if addr = [] then []
  else
    let hex := (removeFirst0x addr).dropWhile (fun c => c == '0')
    '0' :: 'x' :: (if hex = [] then ['0'] else hex)

/-- ASCII lower-casing of a string, the JavaScript
`String.prototype.toLowerCase()` on the ASCII strings in play. -/
def toLowerStr (s : List Char) : List Char :=
  s.map Char.toLower

end GTC

namespace GTC

/-- The fields of the lot objects assembled in `fetchAllLots`
(page.tsx lines 389-404) that the embedded handlers consult. -/
structure Lot where
  start_time : Nat
  duration : Nat
  finalizado : Bool
  mejor_postor : List Char
  mejor_puja : Nat
  paymentDone : Bool
  deriving Repr, DecidableEq

/-- Embedding of `isAuctionActive` (page.tsx lines 458-463): `false`
for a missing lot or a finalized lot, otherwise
`currentTime < lot.start_time + lot.duration`. -/
def isAuctionActive (lot : Option Lot) (currentTime : Nat) : Bool :=
  match lot with
  | none => false
  | some l =>
      if l.finalizado then false
      else decide (currentTime < l.start_time + l.duration)

/-- The `hours h minutes m seconds s` display string built by
`getTimeRemaining` on the positive-remaining branch. -/
def fmtHMS (h m s : Nat) : String :=
  toString h ++ "h " ++ toString m ++ "m " ++ toString s ++ "s"

/-- Embedding of `getTimeRemaining` (page.tsx lines 470-479): `""`
for a missing lot; `"Ended"` when `endTime - currentTime <= 0`;
otherwise the formatted remaining time. -/
def getTimeRemaining (lot : Option Lot) (currentTime : Nat) : String :=
  match lot with
  | none => ""
  | some l =>
      let endTime : Int := (l.start_time : Int) + (l.duration : Int)
      let remaining : Int := endTime - (currentTime : Int)
      if remaining ≤ 0 then "Ended"
      else
        let r := remaining.toNat
        fmtHMS (r / 3600) ((r % 3600) / 60) (r % 60)

end GTC

namespace GTC

/-- Embedding of `computeCommitment` (page.tsx lines 255-266): the
winner address string goes through `BigInt` (whose throw, propagated
by the surrounding try/catch, is modelled as `none`), the amount and
lot id keep only their `splitU256` low halves, and the four values are
hashed with `poseidonHashMany`. -/
def computeCommitment (poseidon : List Nat → Nat)
    (secret amount lot_id : Nat) (winner : List Char) : Option Nat :=
  (parseBigInt winner).map fun w => poseidon (commitInputs secret amount lot_id w)

/-- Embedding of the `calculatedCommitment` preview memo (page.tsx
lines 271-281): empty when the amount or nonce field is blank or a
commit was already sent, empty when a `BigInt` conversion throws, and
otherwise the Poseidon hash of `[low, high, nonce]` rendered in
decimal. -/
def calculatedCommitment (poseidon : List Nat → Nat)
    (amount nonce : List Char) (committed : Bool) : List Char :=
  if amount = [] ∨ nonce = [] ∨ committed then []
  else
    match parseBigInt amount, parseBigInt nonce with
    | some a, some s => (Nat.repr (poseidon (previewInputs a s))).data
    | _, _ => []

end GTC

namespace GTC

/-- The bid record written to `localStorage` by `handleCommit`
(page.tsx lines 600-620); `secret`, `amount` and `lot_id` are stored
as decimal strings and are modelled by their numeric values, `winner`
and `commitment` are kept as strings exactly as stored. -/
structure StoredBid where
  secret : Nat
  amount : Nat
  lot_id : Nat
  winner : List Char
  commitment : List Char
  deriving Repr, DecidableEq

/-- Default producer address constant (page.tsx line 155). -/
def DEFAULT_PRODUCER : List Char :=
  "0x0626bb9241ba6334ae978cfce1280d725e727a6acb5e61392ab4cee031a4b7ca".data

/-- Embedding of the owner-check effect (page.tsx lines 321-331):
with an account connected, `isOwner` is the equality of the two
zero-padded, lower-cased hex addresses; the configured owner address
is the environment value (lower-cased), falling back to
`DEFAULT_PRODUCER` when unset (the JavaScript `||`). -/
def computeIsOwner (activeAccountAddress : List Char) (ownerEnv : List Char) : Bool :=
  if activeAccountAddress = [] then false
  else
    let ownerAddress := toLowerStr (if ownerEnv = [] then DEFAULT_PRODUCER else ownerEnv)
    toLowerStr (toHexAddress activeAccountAddress) == toLowerStr (toHexAddress ownerAddress)

/-- The arguments of the `create_lot` call populated by
`handleCreateLot` (page.tsx lines 519-527). -/
structure CreateLotCall where
  lot_id : Nat
  productor : List Char
  raza : List Char
  peso : Nat
  cantidad : Nat
  metadata_uri : List Char
  duration : Nat
  deriving Repr, DecidableEq

/-- Outcome of a `handleCreateLot` run. -/
inductive CreateLotOutcome where
  | missingData
  | unauthorized
  | txError (call : CreateLotCall)
  | created (call : CreateLotCall)
  deriving Repr, DecidableEq

/-- Embedding of `handleCreateLot` (page.tsx lines 506-544): silent
return without contract or account, an unauthorized error message when
`isOwner` is false, otherwise the `create_lot` call is populated (the
metadata hash gains an `ipfs://` marker unless already present) and
submitted; `txOk` models whether the transaction round-trip threw. -/
def handleCreateLot (hasContract hasAccount isOwner : Bool)
    (nextLotId : Nat) (newProductor newRaza : List Char)
    (newPeso newCantidad : Nat) (newMetadataHash : List Char)
    (newDuration : Nat) (txOk : Bool) : CreateLotOutcome :=
  if ¬hasContract ∨ ¬hasAccount then .missingData
  else if ¬isOwner then .unauthorized
  else
    let metadataUri :=
      if List.isPrefixOf "ipfs://".data newMetadataHash then newMetadataHash
      else "ipfs://".data ++ newMetadataHash
    let call : CreateLotCall :=
      { lot_id := nextLotId, productor := newProductor, raza := newRaza,
        peso := newPeso, cantidad := newCantidad,
        metadata_uri := metadataUri, duration := newDuration }
    if txOk then .created call else .txError call

end GTC

namespace GTC

/-- Local state touched by `handleCommit` for the selected lot: the
`zk_<lot>_<addr>` record, the `bids_<lot>` list, the `committed` flag
and the `commitment` display string. -/
structure CommitLocal where
  zkStored : Option StoredBid
  bids : List StoredBid
  committed : Bool
  commitmentState : List Char
  deriving Repr, DecidableEq

/-- External effects of a `handleCommit` run: whether the Cavos
session activation succeeded, and the transaction result (`none`
models a throw while executing or waiting, `some s` a receipt whose
`execution_status` succeeded iff `s`). -/
structure CommitEnv where
  sessionOk : Bool
  txReceipt : Option Bool
  deriving Repr, DecidableEq

/-- Outcome of a `handleCommit` run. -/
inductive CommitOutcome where
  | notActive
  | sessionError
  | commitmentError
  | txError
  | txFailed
  | success
  deriving Repr, DecidableEq

/-- Embedding of `handleCommit` (page.tsx lines 549-643), for a call
with the contract, account and selected lot id present: the
not-active guard aborts first; then session activation; then the
Poseidon commitment is computed and the two `localStorage` records are
written; then the `commit_bid` transaction is executed and its receipt
checked.  A failure after the `localStorage` writes leaves them in
place (faithful to the source, which writes them before the
transaction). -/
def handleCommit (poseidon : List Nat → Nat)
    (selectedLotInfo : Option Lot) (now : Nat) (caller : List Char)
    (selectedLotId : Nat) (nonce amount : Nat)
    (env : CommitEnv) (st : CommitLocal) : CommitLocal × CommitOutcome :=
  if ¬isAuctionActive selectedLotInfo now then (st, .notActive)
  else if ¬env.sessionOk then (st, .sessionError)
  else
    match computeCommitment poseidon nonce amount selectedLotId caller with
    | none => (st, .commitmentError)
    | some c =>
        let entry : StoredBid :=
          { secret := nonce, amount := amount, lot_id := selectedLotId,
            winner := toLowerStr (toHexAddress caller),
            commitment := (Nat.repr c).data }
        let st1 := { st with zkStored := some entry, bids := st.bids ++ [entry] }
        match env.txReceipt with
        | none => ({ st1 with committed := false }, .txError)
        | some false => ({ st1 with committed := false }, .txFailed)
        | some true =>
            ({ st1 with committed := true, commitmentState := (Nat.repr c).data },
             .success)

/-- Local state touched by `handleReveal`: the stored
`zk_<lot>_<addr>` record (removed on success) and the `revealed`
flag. -/
structure RevealLocal where
  zkStored : Option StoredBid
  revealed : Bool
  deriving Repr, DecidableEq

/-- Outcome of a `handleReveal` run; `txError`, `txFailed` and
`success` are the outcomes in which the reveal transaction was
submitted. -/
inductive RevealOutcome where
  | notActive
  | noCommitData
  | winnerMismatch
  | commitmentError
  | localCommitmentMismatch
  | txError
  | txFailed
  | success
  deriving Repr, DecidableEq

/-- The outcomes of `handleReveal` in which the handler reached the
submission of the `reveal_bid` transaction. -/
def RevealOutcome.submitsReveal : RevealOutcome → Bool
  | .txError | .txFailed | .success => true
  | _ => false

/-- Embedding of `handleReveal` (page.tsx lines 648-798), for a call
with the contract, account and selected lot id present: the
not-active guard aborts first; a missing stored record aborts; a
stored winner different from the caller's formatted address aborts;
then the commitment is recomputed with `computeCommitment` and
compared (as decimal strings) against the stored one — a mismatch
aborts with the local-commitment-mismatch error and nothing is
submitted; only on equality is the `reveal_bid` transaction submitted,
and on receipt success the stored record is removed. -/
def handleReveal (poseidon : List Nat → Nat)
    (selectedLotInfo : Option Lot) (now : Nat) (caller : List Char)
    (selectedLotId : Nat) (txReceipt : Option Bool)
    (st : RevealLocal) : RevealLocal × RevealOutcome :=
  if ¬isAuctionActive selectedLotInfo now then (st, .notActive)
  else
    match st.zkStored with
    | none => (st, .noCommitData)
    | some bid =>
        let winnerAddrFormatted := toLowerStr (toHexAddress caller)
        if toLowerStr bid.winner ≠ winnerAddrFormatted then (st, .winnerMismatch)
        else
          match computeCommitment poseidon bid.secret bid.amount selectedLotId caller with
          | none => (st, .commitmentError)
          | some c =>
              if (Nat.repr c).data ≠ bid.commitment then
                (st, .localCommitmentMismatch)
              else
                match txReceipt with
                | none => ({ st with revealed := false }, .txError)
                | some false => ({ st with revealed := false }, .txFailed)
                | some true => ({ zkStored := none, revealed := true }, .success)

end GTC

namespace GTC

/-- Outcome of a `handleZKProof` run; every outcome from
`backendError` on is reached only after the payment-proof request has
been sent to the backend. -/
inductive ZKProofOutcome where
  | silentReturn
  | onlyWinnerError
  | noBids
  | noWinningBid
  | backendError
  | txError
  | txFailed
  | paymentVerified
  deriving Repr, DecidableEq

/-- The outcomes of `handleZKProof` in which the proof request was
issued to the backend (and hence in which a transaction could have
been submitted at all). -/
def ZKProofOutcome.issuedRequest : ZKProofOutcome → Bool
  | .silentReturn | .onlyWinnerError | .noBids | .noWinningBid => false
  | _ => true

/-- Embedding of `handleZKProof` (page.tsx lines 855-942): a missing
account, missing lot or non-finalized lot returns silently; a caller
whose normalized address differs from the lot's recorded winner fails
with the only-the-winner error; an empty or winner-less stored bid
list aborts; only then is the payment proof requested from the
backend and, on success, the `verify_payment` transaction
submitted. -/
def handleZKProof (activeAccountAddress : List Char)
    (selectedLotInfo : Option Lot) (allBids : List StoredBid)
    (backendCalldata : Option (List (List Char)))
    (txReceipt : Option Bool) : ZKProofOutcome :=
  match selectedLotInfo with
  | none => .silentReturn
  | some lot =>
      if activeAccountAddress = [] ∨ ¬lot.finalizado then .silentReturn
      else if normalizeAddress lot.mejor_postor ≠ normalizeAddress activeAccountAddress then
        .onlyWinnerError
      else if allBids = [] then .noBids
      else
        match allBids.find? (fun b =>
            normalizeAddress b.winner == normalizeAddress activeAccountAddress) with
        | none => .noWinningBid
        | some _ =>
            match backendCalldata with
            | none => .backendError
            | some _ =>
                match txReceipt with
                | none => .txError
                | some false => .txFailed
                | some true => .paymentVerified

/-- Durable local state written by the success path of
`handleFinalizeWithZK`: the `zkFinalizedLotes` mark and the
`finalize_tx_<lot>` record for the selected lot. -/
structure FinalizeLocal where
  zkFinalized : Bool
  finalizeTxStored : Option (List Char)
  deriving Repr, DecidableEq

/-- External effects of a `handleFinalizeWithZK` run: the backend
proof call (`none` models a failed or non-ok response), the
transaction result (`none` a throw, `some s` a receipt succeeding iff
`s`) and the transaction hash. -/
structure FinalizeEnv where
  backendCalldata : Option (List (List Char))
  txReceipt : Option Bool
  txHash : List Char
  deriving Repr, DecidableEq

/-- Outcome of a `handleFinalizeWithZK` run. -/
inductive FinalizeOutcome where
  | notOwner
  | alreadyFinalized
  | noBids
  | backendError
  | noWinner
  | txError
  | txFailed
  | success
  deriving Repr, DecidableEq

/-- Embedding of `handleFinalizeWithZK` (page.tsx lines 960-1085),
for a call with the contract, account, lot id and lot info present:
owner and not-finalized guards; stored bids are required; the proof
backend is called; the lot must have a recorded winner; the
`finalize_with_zk` transaction is executed and its receipt checked;
the `zkFinalizedLotes` mark and the `finalize_tx` record are written
only after the receipt reports success. -/
def handleFinalizeWithZK (isOwner : Bool) (lot : Lot)
    (allBids : List StoredBid) (env : FinalizeEnv)
    (st : FinalizeLocal) : FinalizeLocal × FinalizeOutcome :=
  if ¬isOwner then (st, .notOwner)
  else if lot.finalizado then (st, .alreadyFinalized)
  else if allBids = [] then (st, .noBids)
  else
    match env.backendCalldata with
    | none => (st, .backendError)
    | some _ =>
        let winner := lot.mejor_postor
        let winnerAmount := lot.mejor_puja
        if winner = [] ∨ winner = "0x0".data ∨ winnerAmount = 0 then (st, .noWinner)
        else
          match env.txReceipt with
          | none => (st, .txError)
          | some false => (st, .txFailed)
          | some true =>
              ({ zkFinalized := true, finalizeTxStored := some env.txHash }, .success)

end GTC

namespace GTC

/-! ### Helper lemmas -/

theorem splitU256_low (v : Nat) : (splitU256 v).low = v % 2 ^ 128 := by
  show v &&& ((1 <<< 128) - 1) = v % 2 ^ 128
  rw [Nat.one_shiftLeft]
  exact Nat.and_pow_two_sub_one_eq_mod v 128

theorem splitU256_high (v : Nat) : (splitU256 v).high = v / 2 ^ 128 := by
  show v >>> 128 = v / 2 ^ 128
  exact Nat.shiftRight_eq_div_pow v 128

theorem commitInputs_eq (s a l w : Nat) :
    commitInputs s a l w = [s, a % 2 ^ 128, l % 2 ^ 128, w] := by
  simp [commitInputs, splitU256_low]

theorem previewInputs_eq (a s : Nat) :
    previewInputs a s = [a % 2 ^ 128, a / 2 ^ 128, s] := by
  simp [previewInputs, splitU256_low, splitU256_high]

/-! ### Claim C9 -/

/-- Claim C9: for every non-negative integer `v`, `splitU256 v` returns
`low = v mod 2^128` and `high = v div 2^128`, so `low < 2^128` and
`low + 2^128 * high = v` (split-then-recombine is the identity). -/
theorem splitU256_mod_div (v : Nat) :
    (splitU256 v).low = v % 2 ^ 128 ∧ (splitU256 v).high = v / 2 ^ 128 ∧
    (splitU256 v).low < 2 ^ 128 ∧
    (splitU256 v).low + 2 ^ 128 * (splitU256 v).high = v := by
  refine ⟨splitU256_low v, splitU256_high v, ?_, ?_⟩
  · rw [splitU256_low]
    exact Nat.mod_lt _ (by positivity)
  · rw [splitU256_low, splitU256_high]
    exact Nat.mod_add_div v (2 ^ 128)

/-! ### Claim C1 -/

/-- Claim C1: for every secret `s`, amount `a`, lot id `l` and bidder
identity `w` (a string denoting the number `b`), the binding
commitment `computeCommitment s a l w` is the Poseidon hash of exactly
the four-element sequence `[s, a mod 2^128, l mod 2^128, b]`: only the
low 128 bits of the amount and lot id enter, together with the full
secret and bidder identity, in that field order. -/
theorem computeCommitment_spec (poseidon : List Nat → Nat)
    (s a l : Nat) (w : List Char) (b : Nat)
    (hw : parseBigInt w = some b) :
    computeCommitment poseidon s a l w =
      some (poseidon [s, a % 2 ^ 128, l % 2 ^ 128, b]) := by
  simp [computeCommitment, hw, commitInputs_eq]

/-- Witness for claim C1 at a concrete input. -/
theorem computeCommitment_spec_witness :
    computeCommitment List.sum 1 2 3 "0x5".data =
      some (List.sum [1, 2 % 2 ^ 128, 3 % 2 ^ 128, 5]) :=
  computeCommitment_spec List.sum 1 2 3 "0x5".data 5 (by decide)

end GTC

namespace GTC

/-! ### Claim C4 -/

/-- Claim C4: the preview commitment is a distinct, non-binding
derivation: with the fields filled and no commit sent, it hashes
exactly `[amount mod 2^128, amount div 2^128, secret]` — a function of
the amount and secret only, with no lot id or caller input — and its
input sequence differs in shape (three elements against four) from the
binding commitment's input sequence for every input. -/
theorem preview_distinct_spec (poseidon : List Nat → Nat)
    (amount nonce : List Char) (a s : Nat)
    (ha : parseBigInt amount = some a) (hs : parseBigInt nonce = some s)
    (hA : amount ≠ []) (hN : nonce ≠ []) :
    calculatedCommitment poseidon amount nonce false =
      (Nat.repr (poseidon [a % 2 ^ 128, a / 2 ^ 128, s])).data ∧
    ∀ s' a' l' b', previewInputs a s ≠ commitInputs s' a' l' b' := by
  constructor
  · simp [calculatedCommitment, hA, hN, ha, hs, previewInputs_eq]
  · intro s' a' l' b'
    simp [previewInputs, commitInputs]

/-- Witness for claim C4 at a concrete input. -/
theorem preview_distinct_spec_witness :
    calculatedCommitment List.sum "2".data "7".data false =
      (Nat.repr (List.sum [2 % 2 ^ 128, 2 / 2 ^ 128, 7])).data ∧
    ∀ s' a' l' b', previewInputs 2 7 ≠ commitInputs s' a' l' b' :=
  preview_distinct_spec List.sum "2".data "7".data 2 7
    (by decide) (by decide) (by decide) (by decide)

end GTC

namespace GTC

/-! ### Claim C3 -/

theorem toDigitsCore_length_le (b fuel n : Nat) (ds : List Char) :
    ds.length ≤ (Nat.toDigitsCore b fuel n ds).length := by
  induction fuel generalizing n ds with
  | zero => simp [Nat.toDigitsCore]
  | succ f ih =>
    rw [Nat.toDigitsCore]
    by_cases h : n / b = 0
    · simp [h]
    · simp only [h, if_neg, ite_false]
      have := ih (n / b) (Nat.digitChar (n % b) :: ds)
      simp only [List.length_cons] at this
      omega

theorem one_le_repr_length (n : Nat) : 1 ≤ (Nat.repr n).data.length := by
  show 1 ≤ (Nat.toDigits 10 n).length
  rw [Nat.toDigits, Nat.toDigitsCore]
  by_cases h : n / 10 = 0
  · simp [h]
  · simp only [h, if_neg, ite_false]
    have := toDigitsCore_length_le 10 n (n / 10) [Nat.digitChar (n % 10)]
    simpa using this

theorem fmtHMS_ne_Ended (h m s : Nat) : fmtHMS h m s ≠ "Ended" := by
  intro heq
  have hlen := congrArg (fun t => t.data.length) heq
  simp only [fmtHMS, String.data_append, List.length_append,
    List.length_cons, List.length_nil] at hlen
  have h1 : 1 ≤ (toString h).data.length := one_le_repr_length h
  have h2 : 1 ≤ (toString m).data.length := one_le_repr_length m
  have h3 : 1 ≤ (toString s).data.length := one_le_repr_length s
  omega

/-- Claim C3: a lot is classified as active exactly when it is not
finalized and the current time is strictly before
`start_time + duration`, and the time-remaining display reports
`"Ended"` exactly when the current time has reached
`start_time + duration`. -/
theorem lot_window_spec (l : Lot) (now : Nat) :
    (isAuctionActive (some l) now = true ↔
      l.finalizado = false ∧ now < l.start_time + l.duration) ∧
    (getTimeRemaining (some l) now = "Ended" ↔
      l.start_time + l.duration ≤ now) := by
  constructor
  · cases h : l.finalizado <;> simp [isAuctionActive, h]
  · show (if ((l.start_time : Int) + (l.duration : Int)) - (now : Int) ≤ 0
        then "Ended"
        else fmtHMS _ _ _) = "Ended" ↔ l.start_time + l.duration ≤ now
    by_cases hr : ((l.start_time : Int) + (l.duration : Int)) - (now : Int) ≤ 0
    · simp only [hr, if_pos]
      constructor
      · intro _; omega
      · intro _; trivial
    · simp only [hr, if_neg, ite_false]
      constructor
      · intro hcon; exact absurd hcon (fmtHMS_ne_Ended _ _ _)
      · intro hle; exact absurd hle (by omega)

end GTC

namespace GTC

/-! ### Bridging the digit loop with its recursive characterization -/

theorem natToHexAux_eq_canon :
    ∀ (fuel n : Nat) (acc : List Char), n < fuel →
      natToHexAux fuel n acc = natToHexCanon n ++ acc := by
  intro fuel
  induction fuel with
  | zero => intro n acc h; exact absurd h (Nat.not_lt_zero n)
  | succ f ih =>
    intro n acc h
    by_cases h0 : n / 16 = 0
    · have hn : n < 16 := by
        rcases Nat.div_eq_zero_iff (by omega : 0 < 16) |>.mp h0 with h'
        exact h'
      simp only [natToHexAux, h0, if_pos]
      rw [natToHexCanon, dif_pos hn, Nat.mod_eq_of_lt hn]
      rfl
    · have hn : ¬n < 16 := by
        intro hlt
        exact h0 (Nat.div_eq_of_lt hlt)
      have hdiv : n / 16 < n := Nat.div_lt_self (by omega) (by omega)
      simp only [natToHexAux, h0, ite_false, if_neg]
      rw [ih (n / 16) (hexDigitChar (n % 16) :: acc) (by omega)]
      conv_rhs => rw [natToHexCanon]
      rw [dif_neg hn]
      simp [List.append_assoc]

theorem natToHex_eq_canon (n : Nat) : natToHex n = natToHexCanon n := by
  have := natToHexAux_eq_canon (n + 1) n [] (Nat.lt_succ_self n)
  simpa [natToHex] using this

end GTC

namespace GTC

/-! ### Claim C5 -/

/-- Claim C5: `isOwner` is true exactly when the connected caller's
zero-padded, lower-cased hex address equals the zero-padded,
lower-cased configured owner address (the environment value, lowered,
falling back to the default producer when unset); and both
`handleCreateLot` and `handleFinalizeWithZK` refuse with an
unauthorized error — mutating nothing — when `isOwner` is false. -/
theorem owner_gating_spec :
    (∀ acct env : List Char, computeIsOwner acct env = true ↔
      acct ≠ [] ∧
        toLowerStr (toHexAddress acct) =
          toLowerStr (toHexAddress (toLowerStr
            (if env = [] then DEFAULT_PRODUCER else env)))) ∧
    (∀ (nextLotId : Nat) (newProductor newRaza : List Char)
        (newPeso newCantidad : Nat) (newMetadataHash : List Char)
        (newDuration : Nat) (txOk : Bool),
      handleCreateLot true true false nextLotId newProductor newRaza
        newPeso newCantidad newMetadataHash newDuration txOk =
        .unauthorized) ∧
    (∀ (lot : Lot) (bids : List StoredBid) (env : FinalizeEnv)
        (st : FinalizeLocal),
      handleFinalizeWithZK false lot bids env st = (st, .notOwner)) := by
  refine ⟨?_, ?_, ?_⟩
  · intro acct env
    by_cases h : acct = []
    · simp [computeIsOwner, h]
    · simp [computeIsOwner, h]
  · intro nextLotId newProductor newRaza newPeso newCantidad newMetadataHash
      newDuration txOk
    simp [handleCreateLot]
  · intro lot bids env st
    simp [handleFinalizeWithZK]

/-! ### Claim C7 -/

/-- Claim C7: proof-gated finalization is all-or-nothing — either the
durable local state (the ZK-finalized mark and the stored finalize
transaction record) is left exactly as it was, or the backend call
returned calldata, the transaction receipt reported success, and the
run ended in the success outcome having performed exactly the two
success-path writes. -/
theorem finalize_allOrNothing (own : Bool) (lot : Lot)
    (bids : List StoredBid) (env : FinalizeEnv) (st : FinalizeLocal) :
    (handleFinalizeWithZK own lot bids env st).1 = st ∨
    (env.backendCalldata ≠ none ∧ env.txReceipt = some true ∧
      (handleFinalizeWithZK own lot bids env st).1 =
        ⟨true, some env.txHash⟩ ∧
      (handleFinalizeWithZK own lot bids env st).2 = .success) := by
  cases own with
  | false => left; rfl
  | true =>
    cases hf : lot.finalizado with
    | true => left; simp [handleFinalizeWithZK, hf]
    | false =>
      by_cases hb : bids = []
      · left; simp [handleFinalizeWithZK, hf, hb]
      · cases hbc : env.backendCalldata with
        | none => left; simp [handleFinalizeWithZK, hf, hb, hbc]
        | some cd =>
          by_cases hw : lot.mejor_postor = [] ∨ lot.mejor_postor = "0x0".data ∨
              lot.mejor_puja = 0
          · left; simp [handleFinalizeWithZK, hf, hb, hbc, hw]
          · cases hrc : env.txReceipt with
            | none => left; simp [handleFinalizeWithZK, hf, hb, hbc, hw, hrc]
            | some b =>
              cases b with
              | false => left; simp [handleFinalizeWithZK, hf, hb, hbc, hw, hrc]
              | true =>
                right
                refine ⟨by simp [hbc], rfl, ?_, ?_⟩ <;>
                  simp [handleFinalizeWithZK, hf, hb, hbc, hw, hrc]

/-! ### Claim C8 -/

/-- Claim C8: for a selected lot that is finalized or whose bidding
window has closed, `handleCommit` stops at the not-active guard: it
returns the not-active outcome with the local state untouched — no
commitment is computed, no local bid record is written and no
transaction is submitted. -/
theorem commit_window_guard (poseidon : List Nat → Nat) (l : Lot)
    (now : Nat) (caller : List Char) (lotId nonce amount : Nat)
    (env : CommitEnv) (st : CommitLocal)
    (h : l.finalizado = true ∨ l.start_time + l.duration ≤ now) :
    handleCommit poseidon (some l) now caller lotId nonce amount env st =
      (st, .notActive) := by
  have hact : isAuctionActive (some l) now = false := by
    cases hf : l.finalizado with
    | true => simp [isAuctionActive, hf]
    | false =>
      rcases h with h | h
      · rw [hf] at h; cases h
      · have hlt : ¬now < l.start_time + l.duration := by omega
        simp [isAuctionActive, hf, hlt]
  simp [handleCommit, hact]

/-- Witness for claim C8 at a concrete input. -/
theorem commit_window_guard_witness :
    handleCommit List.sum (some ⟨0, 5, false, [], 0, false⟩) 5 "0x5".data
      1 7 50 ⟨true, some true⟩ ⟨none, [], false, []⟩ =
      (⟨none, [], false, []⟩, .notActive) :=
  commit_window_guard List.sum ⟨0, 5, false, [], 0, false⟩ 5 "0x5".data
    1 7 50 ⟨true, some true⟩ ⟨none, [], false, []⟩ (Or.inr (by decide))

end GTC

namespace GTC

/-! ### Claim C2 -/

/-- Claim C2: for the caller's stored bid record, `handleReveal`
proceeds to submit the reveal if and only if the recomputed
commitment over (secret, amount, lot id, caller) equals the stored
commitment string; on a mismatch it aborts with the local
commitment-mismatch error, leaving the state untouched and submitting
nothing. -/
theorem reveal_commitment_gate (poseidon : List Nat → Nat) (l : Lot)
    (now : Nat) (caller : List Char) (lotId : Nat) (rcpt : Option Bool)
    (st : RevealLocal) (bid : StoredBid) (w : Nat)
    (hact : isAuctionActive (some l) now = true)
    (hst : st.zkStored = some bid)
    (hwin : toLowerStr bid.winner = toLowerStr (toHexAddress caller))
    (hw : parseBigInt caller = some w) :
    ((handleReveal poseidon (some l) now caller lotId rcpt st).2.submitsReveal
        = true ↔
      (Nat.repr (poseidon (commitInputs bid.secret bid.amount lotId w))).data =
        bid.commitment) ∧
    ((Nat.repr (poseidon (commitInputs bid.secret bid.amount lotId w))).data ≠
        bid.commitment →
      handleReveal poseidon (some l) now caller lotId rcpt st =
        (st, .localCommitmentMismatch)) := by
  have hcc : computeCommitment poseidon bid.secret bid.amount lotId caller =
      some (poseidon (commitInputs bid.secret bid.amount lotId w)) := by
    simp [computeCommitment, hw]
  have hrun : handleReveal poseidon (some l) now caller lotId rcpt st =
      (if (Nat.repr (poseidon (commitInputs bid.secret bid.amount lotId w))).data
          ≠ bid.commitment
       then (st, .localCommitmentMismatch)
       else match rcpt with
         | none => ({ st with revealed := false }, .txError)
         | some false => ({ st with revealed := false }, .txFailed)
         | some true => ({ zkStored := none, revealed := true }, .success)) := by
    simp [handleReveal, hact, hst, hwin, hcc]
  constructor
  · rw [hrun]
    by_cases hcm : (Nat.repr (poseidon
        (commitInputs bid.secret bid.amount lotId w))).data = bid.commitment
    · rcases rcpt with _ | b
      · simp [hcm, RevealOutcome.submitsReveal]
      · cases b <;> simp [hcm, RevealOutcome.submitsReveal]
    · simp [hcm, RevealOutcome.submitsReveal]
  · intro hne
    rw [hrun, if_pos hne]

/-- Witness for claim C2 at a concrete input. -/
theorem reveal_commitment_gate_witness :
    ((handleReveal List.sum
        (some ⟨0, 5, false, [], 0, false⟩) 0 "0x5".data 1 (some true)
        ⟨some ⟨7, 50, 1, toLowerStr (toHexAddress "0x5".data),
          (Nat.repr (List.sum (commitInputs 7 50 1 5))).data⟩, false⟩).2.submitsReveal
        = true ↔
      (Nat.repr (List.sum (commitInputs 7 50 1 5))).data =
        (Nat.repr (List.sum (commitInputs 7 50 1 5))).data) ∧
    ((Nat.repr (List.sum (commitInputs 7 50 1 5))).data ≠
        (Nat.repr (List.sum (commitInputs 7 50 1 5))).data →
      handleReveal List.sum
        (some ⟨0, 5, false, [], 0, false⟩) 0 "0x5".data 1 (some true)
        ⟨some ⟨7, 50, 1, toLowerStr (toHexAddress "0x5".data),
          (Nat.repr (List.sum (commitInputs 7 50 1 5))).data⟩, false⟩ =
        (⟨some ⟨7, 50, 1, toLowerStr (toHexAddress "0x5".data),
          (Nat.repr (List.sum (commitInputs 7 50 1 5))).data⟩, false⟩,
         .localCommitmentMismatch)) :=
  reveal_commitment_gate List.sum ⟨0, 5, false, [], 0, false⟩ 0 "0x5".data 1
    (some true)
    ⟨some ⟨7, 50, 1, toLowerStr (toHexAddress "0x5".data),
      (Nat.repr (List.sum (commitInputs 7 50 1 5))).data⟩, false⟩
    ⟨7, 50, 1, toLowerStr (toHexAddress "0x5".data),
      (Nat.repr (List.sum (commitInputs 7 50 1 5))).data⟩ 5
    (by decide) rfl (by decide) (by decide)

end GTC

namespace GTC

/-! ### Claim C6 -/

/-- Claim C6: `handleZKProof` issues no proof request and no
transaction unless the lot is finalized and the caller's normalized
address equals the lot's recorded winner; and with the lot finalized,
any connected caller whose normalized address differs from the
recorded winner fails with the only-the-winner error. -/
theorem zkProof_winner_gate :
    (∀ (acct : List Char) (lotOpt : Option Lot) (bids : List StoredBid)
        (backend : Option (List (List Char))) (rcpt : Option Bool),
      (handleZKProof acct lotOpt bids backend rcpt).issuedRequest = true →
        ∃ l, lotOpt = some l ∧ l.finalizado = true ∧
          normalizeAddress l.mejor_postor = normalizeAddress acct) ∧
    (∀ (acct : List Char) (l : Lot) (bids : List StoredBid)
        (backend : Option (List (List Char))) (rcpt : Option Bool),
      acct ≠ [] → l.finalizado = true →
      normalizeAddress l.mejor_postor ≠ normalizeAddress acct →
      handleZKProof acct (some l) bids backend rcpt = .onlyWinnerError) := by
  constructor
  · intro acct lotOpt bids backend rcpt h
    match lotOpt with
    | none => simp [handleZKProof, ZKProofOutcome.issuedRequest] at h
    | some l =>
      refine ⟨l, rfl, ?_⟩
      simp only [handleZKProof] at h
      by_cases h1 : acct = [] ∨ ¬(l.finalizado = true)
      · rw [if_pos h1] at h
        simp [ZKProofOutcome.issuedRequest] at h
      · rw [if_neg h1] at h
        push_neg at h1
        by_cases h2 : normalizeAddress l.mejor_postor = normalizeAddress acct
        · exact ⟨h1.2, h2⟩
        · rw [if_pos h2] at h
          simp [ZKProofOutcome.issuedRequest] at h
  · intro acct l bids backend rcpt hacct hfin hne
    simp [handleZKProof, hacct, hfin, hne]

/-- Witness for claim C6 at a concrete input. -/
theorem zkProof_winner_gate_witness :
    handleZKProof "0x5".data (some ⟨0, 0, true, "0x7".data, 9, false⟩) [] none
      none = .onlyWinnerError :=
  zkProof_winner_gate.2 "0x5".data ⟨0, 0, true, "0x7".data, 9, false⟩ [] none
    none (by decide) rfl (by decide)

end GTC

namespace GTC

/-! ### Claim C10: supporting lemmas -/

theorem dropWhile_not_head {p : Char → Bool} :
    ∀ (l : List Char) (c : Char) (cs : List Char),
      l.dropWhile p = c :: cs → p c = false := by
  intro l
  induction l with
  | nil => intro c cs h; cases h
  | cons a as ih =>
    intro c cs h
    rw [List.dropWhile_cons] at h
    by_cases hp : p a
    · rw [if_pos hp] at h; exact ih c cs h
    · rw [if_neg hp] at h
      cases h
      simpa using hp

theorem mem_of_mem_dropWhile {p : Char → Bool} :
    ∀ (l : List Char) (c : Char), c ∈ l.dropWhile p → c ∈ l := by
  intro l
  induction l with
  | nil => intro c h; simp at h
  | cons a as ih =>
    intro c h
    rw [List.dropWhile_cons] at h
    by_cases hp : p a
    · rw [if_pos hp] at h; exact List.mem_cons_of_mem a (ih c h)
    · rw [if_neg hp] at h; exact h

theorem lowerHex_digit_facts (c : Char) (h : isLowerHexDigit c = true) :
    hexDigitChar (hexDigitVal c) = c ∧ hexDigitVal c < 16 ∧
      (hexDigitVal c = 0 ↔ c = '0') ∧ isHexDigit c = true := by
  have hmem : c ∈ lowerHexChars := by
    have := h
    rw [isLowerHexDigit, List.contains, List.elem_iff] at this
    exact this
  have hall : ∀ x ∈ lowerHexChars,
      hexDigitChar (hexDigitVal x) = x ∧ hexDigitVal x < 16 ∧
        (hexDigitVal x = 0 ↔ x = '0') ∧ isHexDigit x = true := by decide
  exact hall c hmem

theorem foldl_digits_eq_zero :
    ∀ (cs : List Char) (acc : Nat),
      cs.foldl (fun a c => 16 * a + hexDigitVal c) acc = 0 →
      acc = 0 ∧ ∀ c ∈ cs, hexDigitVal c = 0 := by
  intro cs
  induction cs with
  | nil => intro acc h; exact ⟨h, by simp⟩
  | cons a as ih =>
    intro acc h
    rw [List.foldl_cons] at h
    obtain ⟨h1, h2⟩ := ih _ h
    refine ⟨by omega, ?_⟩
    intro c hc
    rcases List.mem_cons.mp hc with rfl | hc
    · omega
    · exact h2 c hc

theorem digitsVal16_dropzeros (ds : List Char) :
    digitsVal 16 (ds.dropWhile (fun c => c == '0')) = digitsVal 16 ds := by
  induction ds with
  | nil => rfl
  | cons a as ih =>
    rw [List.dropWhile_cons]
    by_cases ha : (a == '0') = true
    · have ha' : a = '0' := by simpa using ha
      rw [if_pos ha, ih, ha']
      simp only [digitsVal, List.foldl_cons]
      rw [show (16 * 0 + hexDigitVal '0') = 0 from by decide]
    · rw [if_neg (by simpa using ha)]

theorem digitsVal16_pos (t : List Char) (hne : t ≠ [])
    (hval : ∀ c ∈ t, isLowerHexDigit c = true)
    (hhead : ∀ c cs, t = c :: cs → c ≠ '0') :
    1 ≤ digitsVal 16 t := by
  by_contra hcon
  have h0 : digitsVal 16 t = 0 := by omega
  obtain ⟨-, hall⟩ := foldl_digits_eq_zero t 0 h0
  obtain ⟨c, cs, rfl⟩ : ∃ c cs, t = c :: cs := by
    cases t with
    | nil => exact absurd rfl hne
    | cons c cs => exact ⟨c, cs, rfl⟩
  have hc0 : c = '0' :=
    ((lowerHex_digit_facts c (hval c (by simp))).2.2.1).mp
      (hall c (by simp))
  exact hhead c cs rfl hc0

end GTC

namespace GTC

theorem natToHexCanon_zero : natToHexCanon 0 = ['0'] := by
  rw [natToHexCanon, dif_pos (by omega : (0 : Nat) < 16)]
  rw [show hexDigitChar 0 = '0' from by decide]

theorem natToHexCanon_ne_nil (n : Nat) : natToHexCanon n ≠ [] := by
  rw [natToHexCanon]
  by_cases h : n < 16
  · rw [dif_pos h]; simp
  · rw [dif_neg h]; simp

theorem natToHexCanon_head_ne_zero :
    ∀ n, 1 ≤ n → ∀ c cs, natToHexCanon n = c :: cs → c ≠ '0' := by
  intro n
  induction n using Nat.strong_induction_on with
  | _ n ih =>
    intro h1 c cs heq
    by_cases h16 : n < 16
    · rw [natToHexCanon, dif_pos h16] at heq
      have hc : c = hexDigitChar n := by
        cases heq; rfl
      subst hc
      interval_cases n <;> decide
    · rw [natToHexCanon, dif_neg h16] at heq
      obtain ⟨c', cs', h'⟩ : ∃ c' cs', natToHexCanon (n / 16) = c' :: cs' := by
        cases hcn : natToHexCanon (n / 16) with
        | nil => exact absurd hcn (natToHexCanon_ne_nil (n / 16))
        | cons c' cs' => exact ⟨c', cs', rfl⟩
      rw [h'] at heq
      have hc : c = c' := by
        cases heq; rfl
      subst hc
      have hdiv : n / 16 < n := Nat.div_lt_self (by omega) (by omega)
      have hpos : 1 ≤ n / 16 := by
        have := Nat.div_le_div_right (c := 16) (by omega : 16 ≤ n)
        simpa using this
      exact ih (n / 16) hdiv hpos c cs' h'

theorem natToHexCanon_digitsVal :
    ∀ t : List Char, t ≠ [] → (∀ c ∈ t, isLowerHexDigit c = true) →
      (∀ c cs, t = c :: cs → c ≠ '0') →
      natToHexCanon (digitsVal 16 t) = t := by
  intro t
  induction t using List.reverseRecOn with
  | nil => intro h; exact absurd rfl h
  | append_singleton as a ih =>
    intro _ hval hhead
    have hva : isLowerHexDigit a = true := hval a (by simp)
    obtain ⟨hchar, hlt, hzero, -⟩ := lowerHex_digit_facts a hva
    by_cases has : as = []
    · subst has
      simp only [List.nil_append]
      have hsingle : digitsVal 16 [a] = hexDigitVal a := by
        simp [digitsVal]
      rw [hsingle, natToHexCanon, dif_pos hlt, hchar]
    · have hval' : ∀ c ∈ as, isLowerHexDigit c = true := fun c hc =>
        hval c (List.mem_append_left _ hc)
      have hhead' : ∀ c cs, as = c :: cs → c ≠ '0' := by
        intro c cs hcc
        exact hhead c (cs ++ [a]) (by rw [hcc]; rfl)
      have hVpos : 1 ≤ digitsVal 16 as := digitsVal16_pos as has hval' hhead'
      have hV : digitsVal 16 (as ++ [a]) =
          16 * digitsVal 16 as + hexDigitVal a := by
        simp [digitsVal, List.foldl_append]
      rw [hV]
      rw [natToHexCanon,
        dif_neg (by omega : ¬(16 * digitsVal 16 as + hexDigitVal a < 16))]
      have hdiv : (16 * digitsVal 16 as + hexDigitVal a) / 16 =
          digitsVal 16 as := by omega
      have hmod : (16 * digitsVal 16 as + hexDigitVal a) % 16 =
          hexDigitVal a := by omega
      rw [hdiv, hmod, ih has hval' hhead', hchar]

theorem dropWhile_zero_replicate (k : Nat) (l : List Char) :
    (List.replicate k '0' ++ l).dropWhile (fun c => c == '0') =
      l.dropWhile (fun c => c == '0') := by
  induction k with
  | zero => rfl
  | succ j ih =>
    rw [List.replicate_succ, List.cons_append, List.dropWhile_cons,
      if_pos (by decide)]
    exact ih

end GTC

namespace GTC

theorem normalizeAddress_cons (s : List Char) (hs : s ≠ []) :
    normalizeAddress s = '0' :: 'x' ::
      (if (removeFirst0x s).dropWhile (fun c => c == '0') = [] then ['0']
       else (removeFirst0x s).dropWhile (fun c => c == '0')) := by
  rw [normalizeAddress, if_neg hs]

/-! ### Claim C10 -/

/-- Claim C10: `normalizeAddress` is idempotent on every string, and
on every non-empty lower-case `0x`-marked hex address it agrees with
the zero-padded form produced by `toHexAddress` — so the two address
comparators identify zero-padded and unpadded spellings of the same
address. -/
theorem normalizeAddress_idem_pad :
    (∀ s : List Char,
      normalizeAddress (normalizeAddress s) = normalizeAddress s) ∧
    (∀ ds : List Char, ds ≠ [] → ds.all isLowerHexDigit = true →
      normalizeAddress (toHexAddress ('0' :: 'x' :: ds)) =
        normalizeAddress ('0' :: 'x' :: ds)) := by
  constructor
  · intro s
    by_cases hs : s = []
    · rw [hs]
      rfl
    · rw [normalizeAddress_cons s hs]
      set t := (removeFirst0x s).dropWhile (fun c => c == '0') with ht
      by_cases h0 : t = []
      · rw [if_pos h0]
        decide
      · rw [if_neg h0]
        obtain ⟨c, cs, hc⟩ := List.exists_cons_of_ne_nil h0
        have hdw : (removeFirst0x s).dropWhile (fun c => c == '0') = c :: cs := by
          rw [← ht]; exact hc
        have hpc : (c == '0') = false := dropWhile_not_head _ c cs hdw
        rw [normalizeAddress_cons ('0' :: 'x' :: t) (by simp)]
        have hrm : removeFirst0x ('0' :: 'x' :: t) = t := rfl
        rw [hrm, hc, List.dropWhile_cons,
          if_neg (by simp [hpc] : ¬((c == '0') = true)),
          if_neg (List.cons_ne_nil c cs)]
  · intro ds hne hall
    have hvalmem : ∀ c ∈ ds, isLowerHexDigit c = true := by
      intro c hc; exact List.all_eq_true.mp hall c hc
    have hallhex : ds.all isHexDigit = true := by
      rw [List.all_eq_true]
      intro c hc
      exact (lowerHex_digit_facts c (hvalmem c hc)).2.2.2
    have hparse : parseBigInt ('0' :: 'x' :: ds) = some (digitsVal 16 ds) := by
      simp [parseBigInt, hne, hallhex]
    have hhex : toHexAddress ('0' :: 'x' :: ds) =
        '0' :: 'x' :: padStart 64 '0' (natToHex (digitsVal 16 ds)) := by
      rw [toHexAddress, if_neg (by simp), hparse]
    rw [hhex]
    rw [normalizeAddress_cons
      ('0' :: 'x' :: padStart 64 '0' (natToHex (digitsVal 16 ds))) (by simp)]
    rw [normalizeAddress_cons ('0' :: 'x' :: ds) (by simp)]
    have hrm1 : removeFirst0x
        ('0' :: 'x' :: padStart 64 '0' (natToHex (digitsVal 16 ds))) =
        padStart 64 '0' (natToHex (digitsVal 16 ds)) := rfl
    have hrm2 : removeFirst0x ('0' :: 'x' :: ds) = ds := rfl
    rw [hrm1, hrm2]
    have hpad : (padStart 64 '0' (natToHex (digitsVal 16 ds))).dropWhile
        (fun c => c == '0') =
        (natToHex (digitsVal 16 ds)).dropWhile (fun c => c == '0') := by
      rw [padStart]
      exact dropWhile_zero_replicate _ _
    rw [hpad, natToHex_eq_canon]
    by_cases hn : digitsVal 16 ds = 0
    · rw [hn, natToHexCanon_zero]
      have hds0 : ds.dropWhile (fun c => c == '0') = [] := by
        rw [List.dropWhile_eq_nil_iff]
        intro c hc
        obtain ⟨-, hall'⟩ := foldl_digits_eq_zero ds 0 hn
        have hc0 : c = '0' :=
          ((lowerHex_digit_facts c (hvalmem c hc)).2.2.1).mp (hall' c hc)
        simp [hc0]
      rw [hds0,
        show (['0'] : List Char).dropWhile (fun c => c == '0') = []
          from by decide]
    · set t := ds.dropWhile (fun c => c == '0') with htd
      have hvalT : digitsVal 16 t = digitsVal 16 ds := by
        rw [htd]; exact digitsVal16_dropzeros ds
      have htne : t ≠ [] := by
        intro h0
        apply hn
        rw [← hvalT, h0]
        rfl
      have hthead : ∀ c cs, t = c :: cs → c ≠ '0' := by
        intro c cs hcc hc0
        have hpc : (c == '0') = false :=
          dropWhile_not_head ds c cs (by rw [← htd]; exact hcc)
        rw [hc0] at hpc
        simp at hpc
      have htval : ∀ c ∈ t, isLowerHexDigit c = true := by
        intro c hc
        rw [htd] at hc
        exact hvalmem c (mem_of_mem_dropWhile ds c hc)
      have hcanon : natToHexCanon (digitsVal 16 ds) = t := by
        rw [← hvalT]
        exact natToHexCanon_digitsVal t htne htval hthead
      have hidem : t.dropWhile (fun c => c == '0') = t := by
        rw [htd]
        exact List.dropWhile_idempotent _ _
      rw [hcanon, hidem]

/-- Witness for claim C10 at concrete inputs. -/
theorem normalizeAddress_idem_pad_witness :
    normalizeAddress (normalizeAddress "00xab".data) =
      normalizeAddress "00xab".data ∧
    normalizeAddress (toHexAddress ('0' :: 'x' :: ['0', 'a', 'b'])) =
      normalizeAddress ('0' :: 'x' :: ['0', 'a', 'b']) :=
  ⟨normalizeAddress_idem_pad.1 "00xab".data,
   normalizeAddress_idem_pad.2 ['0', 'a', 'b'] (by decide) (by decide)⟩

end GTC
